import Mathlib

/- Shallow embedding of the lottodia application core (src/app.js): quoted-CSV
parsing, record normalization, category partitioning, filtering and lottery
facet derivation.  Machine strings are Lean strings (lists of characters);
JavaScript string operations are modelled character by character. -/

namespace Lottodia

/-- One normalized CSV row, with the fixed schema built by `parseCSV`
(src/app.js lines 47-59).  Every field is a string; absence is the empty
string, never a missing key. -/
structure Record where
  categoria : String
  fecha : String
  loteria : String
  horario : String
  triple : String
  terminal_a_b : String
  terminal_c : String
  numero : String
  signo : String
  cacho : String
  animal : String
deriving DecidableEq

/-- ASCII model of the whitespace class removed by JavaScript
String.prototype.trim. -/
def jsWhitespace (c : Char) : Bool :=
  c = ' ' || c = '\t' || c = '\n' || c = '\r' || c = '\x0b' || c = '\x0c'

/-- JavaScript `s.trim()` on a character list: whitespace removed from both
ends. -/
def jsTrim (l : List Char) : List Char :=
  ((l.dropWhile jsWhitespace).reverse.dropWhile jsWhitespace).reverse

/-- Number of double-quote characters in a character list. -/
def countQuotes : List Char → Nat
  | [] => 0
  | c :: rest => (if c = '"' then 1 else 0) + countQuotes rest

/-- The quote-aware comma split of src/app.js line 38,
`r.split(/,(?=(?:(?:[^"]*"){2})*[^"]*$)/)`: the lookahead accepts a comma
exactly when the remainder of the line contains an even number of
double-quote characters. -/
def splitQuoteAware : List Char → List (List Char)
  | [] => [[]]
  | c :: rest =>
    if c = ',' ∧ countQuotes rest % 2 = 0 then
      [] :: splitQuoteAware rest
    else
      match splitQuoteAware rest with
      | [] => [[c]]
      | s :: ss => (c :: s) :: ss

/-- `text.split("\n")` of src/app.js line 35. -/
def splitOnNewline : List Char → List (List Char)
  | [] => [[]]
  | c :: rest =>
    if c = '\n' then [] :: splitOnNewline rest
    else
      match splitOnNewline rest with
      | [] => [[c]]
      | s :: ss => (c :: s) :: ss

/-- The cell cleanup `v.replace(/^"|"$/g, "")` of src/app.js line 39: one
leading double quote removed if present, then one trailing double quote
removed if present. -/
def stripOuterQuotes (l : List Char) : List Char :=
  let l1 := if l.head? = some '"' then l.tail else l
  if l1.getLast? = some '"' then l1.dropLast else l1

/-- Full cell cleanup of src/app.js line 39: strip one layer of outer quotes,
then trim surrounding whitespace. -/
def cleanCell (l : List Char) : List Char :=
  jsTrim (stripOuterQuotes l)

/-- One CSV line turned into its list of cleaned cells
(src/app.js lines 36-40). -/
def parseLine (l : List Char) : List String :=
  (splitQuoteAware l).map (fun c => ⟨cleanCell c⟩)

/-- ASCII model of JavaScript `s.toLowerCase()`. -/
def lowerString (s : String) : String :=
  ⟨s.data.map Char.toLower⟩

/-- Walks the header list in parallel with the row cells, keeping the value of
the last header equal to `key`; models the object built by
`headers.forEach((h, i) => (o[h] = r[i] || ""))` at src/app.js line 46, where
a later duplicate header overwrites an earlier one and a missing cell reads as
the empty string. -/
def getFieldGo : List String → List String → String → String → String
  | [], _, _, acc => acc
  | h :: hs, cs, key, acc =>
    let v := match cs with
      | [] => ""
      | c :: _ => c
    let rest := match cs with
      | [] => ([] : List String)
      | _ :: t => t
    getFieldGo hs rest key (if h = key then v else acc)

/-- Field lookup in the per-row object of src/app.js line 46: the value of the
last occurrence of `key` among the headers, the empty string when absent. -/
def getField (headers cells : List String) (key : String) : String :=
  getFieldGo headers cells key ""

/-- JavaScript `s || d` for strings: the default applies exactly when `s` is
empty. -/
def jsOr (s d : String) : String :=
  if s = "" then d else s

/-- The fixed-schema record literal of src/app.js lines 47-59. -/
def mkRecord (headers cells : List String) : Record :=
  { categoria := jsOr (getField headers cells "categoria") "loteria"
  , fecha := jsOr (getField headers cells "fecha") ""
  , loteria := jsOr (getField headers cells "loteria") ""
  , horario := jsOr (getField headers cells "horario") ""
  , triple := jsOr (getField headers cells "triple") ""
  , terminal_a_b := jsOr (getField headers cells "terminal_a_b") ""
  , terminal_c := jsOr (getField headers cells "terminal_c") ""
  , numero := jsOr (getField headers cells "numero") ""
  , signo := jsOr (getField headers cells "signo") ""
  , cacho := jsOr (getField headers cells "cacho") ""
  , animal := jsOr (getField headers cells "animal") "" }

/-- The `rows.shift()` step and the row-to-record map of src/app.js
lines 42-60: the first parsed line is the lower-cased header row, every
remaining line becomes a record. -/
def parseRows : List (List String) → List Record
  | [] => []
  | header :: rows => rows.map (mkRecord (header.map lowerString))

/-- The complete `parseCSV` of src/app.js lines 32-61. -/
def parseCSV (text : String) : List Record :=
  parseRows ((splitOnNewline (jsTrim text.data)).map parseLine)

/-- Modelled from the spec (the comma-delimiter rule as stated): the split
uses the parity of the double-quote characters BEFORE the comma, carried in
the accumulator `qc`. -/
def splitByPrecedingAux (qc : Nat) : List Char → List (List Char)
  | [] => [[]]
  | c :: rest =>
    if c = ',' ∧ qc % 2 = 0 then
      [] :: splitByPrecedingAux qc rest
    else
      match splitByPrecedingAux (if c = '"' then qc + 1 else qc) rest with
      | [] => [[c]]
      | s :: ss => (c :: s) :: ss

/-- Modelled from the spec: a comma is a delimiter exactly when it is not
enclosed by an odd number of preceding double-quote characters within the
line. -/
def splitByPrecedingParity (l : List Char) : List (List Char) :=
  splitByPrecedingAux 0 l

/-- The field values of a record in the insertion order of the object literal
of src/app.js lines 47-59; this is the order seen by `Object.values(r)` at
line 93. -/
def recordValues (r : Record) : List String :=
  [r.categoria, r.fecha, r.loteria, r.horario, r.triple, r.terminal_a_b,
   r.terminal_c, r.numero, r.signo, r.cacho, r.animal]

/-- JavaScript `arr.join(" ")` on character lists. -/
def joinWithSpace : List (List Char) → List Char
  | [] => []
  | [x] => x
  | x :: y :: t => x ++ ' ' :: joinWithSpace (y :: t)

/-- The search blob `Object.values(r).join(" ").toLowerCase()` of
src/app.js line 93. -/
def textBlob (r : Record) : List Char :=
  (joinWithSpace ((recordValues r).map String.data)).map Char.toLower

/-- Modelled from the spec: every schema field value lower-cased and joined
with single spaces in schema field order, category included. -/
def specBlob (r : Record) : List Char :=
  joinWithSpace ((recordValues r).map (fun s => s.data.map Char.toLower))

/-- Modelled from the claim wording for the free-text filter: the lower-cased
single-space join of date, lottery, schedule, triple, terminal A/B,
terminal C, number, sign, cacho and animal, with the category field left
out. -/
def claimedBlob (r : Record) : List Char :=
  joinWithSpace
    ([r.fecha, r.loteria, r.horario, r.triple, r.terminal_a_b, r.terminal_c,
      r.numero, r.signo, r.cacho, r.animal].map (fun s => s.data.map Char.toLower))

/-- Whether the first character list is a prefix of the second, as booleans. -/
def startsWithChars : List Char → List Char → Bool
  | [], _ => true
  | _ :: _, [] => false
  | a :: as, b :: bs => a = b && startsWithChars as bs

/-- JavaScript `hay.includes(needle)`: substring containment. -/
def containsChars (hay needle : List Char) : Bool :=
  match hay with
  | [] => needle.isEmpty
  | _ :: rest => startsWithChars needle hay || containsChars rest needle

/-- The filter predicate of src/app.js lines 90-94: a record is dropped when a
lottery is selected and does not match exactly; with an empty query every
remaining record passes; otherwise the lower-cased joined field values must
contain the query.  `q` is already lower-cased by the caller (line 86). -/
def rowPasses (lot q : String) (r : Record) : Bool :=
  if lot ≠ "" ∧ r.loteria ≠ lot then false
  else if q = "" then true
  else containsChars (textBlob r) q.data

/-- First-occurrence deduplication with an explicit seen set; models the
iteration order of a JavaScript Set built by insertion. -/
def dedupFirstAux (seen : List String) : List String → List String
  | [] => []
  | x :: xs =>
    if x ∈ seen then dedupFirstAux seen xs
    else x :: dedupFirstAux (x :: seen) xs

/-- The `uniq` helper of src/app.js lines 63-65:
`[...new Set(arr)].filter(Boolean)` removes duplicates keeping first
occurrences, then removes empty strings. -/
def uniq (arr : List String) : List String :=
  (dedupFirstAux [] arr).filter (fun s => s != "")

/-- The `lots` list computed inside `populateLotterySelect` at src/app.js
line 78: `uniq(rows.map((r) => r.loteria)).sort((a, b) => a.localeCompare(b))`.
The locale-aware comparator is modelled by the linear order on strings, and
the JavaScript sort by a stable sorting algorithm. -/
def populateLotterySelect (rows : List Record) : List String :=
  List.insertionSort (fun a b => a ≤ b) (uniq (rows.map (fun r => r.loteria)))

/-- The category of a record as read by src/app.js line 74:
`r.categoria || "loteria"`. -/
def effectiveCategory (r : Record) : String :=
  jsOr r.categoria "loteria"

/-- The category filter of src/app.js lines 73-75, abstracted over the dataset
and the active category. -/
def forCategory (ds : List Record) (cat : String) : List Record :=
  ds.filter (fun r => effectiveCategory r = cat)

/-- The mutable application state of src/app.js: the parsed dataset `RAW`, the
filtered list `FILTERED`, the active category, the two filter controls and
the option list of the lottery select. -/
structure AppState where
  RAW : List Record
  FILTERED : List Record
  CURRENT_CAT : String
  lotSelValue : String
  qValue : String
  lotOptions : List String
deriving DecidableEq

/-- `rowsForCurrentCategory` of src/app.js lines 73-75. -/
def rowsForCurrentCategory (s : AppState) : List Record :=
  forCategory s.RAW s.CURRENT_CAT

/-- `applyFilters` of src/app.js lines 84-97: reads the two controls, lower
cases the query and rebuilds `FILTERED` from the current category subset. -/
def applyFilters (s : AppState) : AppState :=
  let newFiltered :=
    (rowsForCurrentCategory s).filter (rowPasses s.lotSelValue (lowerString s.qValue))
  { s with FILTERED := newFiltered }

/-- `setCategory` of src/app.js lines 153-175: store the category, reset both
filter controls, repopulate the lottery select from the new category subset,
then apply the filters. -/
def setCategory (cat : String) (s : AppState) : AppState :=
  let s1 := { s with CURRENT_CAT := cat, lotSelValue := "", qValue := "" }
  let s2 := { s1 with lotOptions := populateLotterySelect (rowsForCurrentCategory s1) }
  applyFilters s2

/-- The catch branch of `loadData` at src/app.js lines 194-199: on a failed
fetch the dataset and the filtered list are cleared. -/
def loadDataFailure (s : AppState) : AppState :=
  { s with RAW := [], FILTERED := [] }

/-- A concrete animalitos record used in examples, as produced by parsing the
feed line `animalitos,Triple,20,Cerdo` under the header
`categoria,loteria,numero,animal`. -/
def cerdoRec : Record :=
  { categoria := "animalitos", fecha := "", loteria := "Triple", horario := ""
  , triple := "", terminal_a_b := "", terminal_c := "", numero := "20"
  , signo := "", cacho := "", animal := "Cerdo" }

/-- A record whose only nonempty field is the category. -/
def blankCategoryOnlyRec : Record :=
  { categoria := "animalitos", fecha := "", loteria := "", horario := ""
  , triple := "", terminal_a_b := "", terminal_c := "", numero := ""
  , signo := "", cacho := "", animal := "" }

/-- The split on newlines always produces at least one chunk, which is why
`rows.shift()` at src/app.js line 42 never sees an empty array. -/
theorem splitOnNewline_ne_nil : ∀ l : List Char, splitOnNewline l ≠ [] := by
  intro l
  cases l with
  | nil => simp [splitOnNewline]
  | cons c rest =>
    by_cases hc : c = '\n'
    · simp [splitOnNewline, hc]
    · simp only [splitOnNewline, if_neg hc]
      cases splitOnNewline rest <;> simp

/-- The record length of the parse equals the line count minus the header. -/
theorem parseCSV_length (text : String) :
    (parseCSV text).length + 1 = (splitOnNewline (jsTrim text.data)).length := by
  unfold parseCSV
  rcases hls : splitOnNewline (jsTrim text.data) with _ | ⟨hd, tl⟩
  · exact absurd hls (splitOnNewline_ne_nil _)
  · simp [parseRows]

/-- The parsed category field never ends up empty: the default applies. -/
theorem mkRecord_categoria_ne (headers cells : List String) :
    (mkRecord headers cells).categoria ≠ "" := by
  by_cases hc : getField headers cells "categoria" = ""
  · simp [mkRecord, jsOr, hc]
  · simp [mkRecord, jsOr, hc]

/-- Every record produced by `parseCSV` carries a nonempty category. -/
theorem parseCSV_categoria_ne (text : String) (r : Record)
    (hr : r ∈ parseCSV text) : r.categoria ≠ "" := by
  unfold parseCSV at hr
  rcases hls : (splitOnNewline (jsTrim text.data)).map parseLine with _ | ⟨hd, tl⟩
  · rw [hls] at hr
    simp [parseRows] at hr
  · rw [hls] at hr
    simp only [parseRows, List.mem_map] at hr
    obtain ⟨cells, -, rfl⟩ := hr
    exact mkRecord_categoria_ne _ _

/-- With the accumulated preceding-quote parity agreeing with the parity of
the quotes still to come, the preceding-parity split of the spec and the
lookahead split of the code coincide. -/
theorem splitByPrecedingAux_eq (l : List Char) :
    ∀ qc : Nat, (qc + countQuotes l) % 2 = 0 →
      splitByPrecedingAux qc l = splitQuoteAware l := by
  induction l with
  | nil => intro qc h; rfl
  | cons c rest ih =>
    intro qc h
    by_cases hc : c = ','
    · subst hc
      have hq : countQuotes (',' :: rest) = countQuotes rest := by
        simp [countQuotes]
      rw [hq] at h
      by_cases hq0 : qc % 2 = 0
      · have hr0 : countQuotes rest % 2 = 0 := by omega
        simp only [splitByPrecedingAux, splitQuoteAware]
        simp [hq0, hr0, ih qc h]
      · have hr0 : ¬ countQuotes rest % 2 = 0 := by omega
        simp only [splitByPrecedingAux, splitQuoteAware]
        simp [hq0, hr0, ih qc h]
    · have hcond1 : ¬(c = ',' ∧ qc % 2 = 0) := fun hh => hc hh.1
      have hcond2 : ¬(c = ',' ∧ countQuotes rest % 2 = 0) := fun hh => hc hh.1
      have hinv : ((if c = '"' then qc + 1 else qc) + countQuotes rest) % 2 = 0 := by
        simp only [countQuotes] at h
        by_cases hqt : c = '"'
        · rw [hqt] at h ⊢
          rw [if_pos rfl] at h ⊢
          omega
        · rw [if_neg hqt] at h ⊢
          omega
      simp only [splitByPrecedingAux, splitQuoteAware]
      rw [if_neg hcond1, if_neg hcond2, ih _ hinv]

/-- Lower-casing a space leaves it unchanged. -/
theorem toLower_space : Char.toLower ' ' = ' ' := rfl

/-- Lower-casing distributes over the single-space join because the space
separator itself is unchanged by lower-casing. -/
theorem map_toLower_joinWithSpace : ∀ xss : List (List Char),
    (joinWithSpace xss).map Char.toLower =
      joinWithSpace (xss.map (List.map Char.toLower)) := by
  intro xss
  induction xss with
  | nil => rfl
  | cons x xs ih =>
    cases xs with
    | nil => rfl
    | cons y t =>
      simp only [joinWithSpace, List.map_append, List.map_cons, toLower_space]
      rw [ih]
      rfl

/-- Lower-casing the joined field values equals joining the individually
lower-cased field values. -/
theorem textBlob_eq_specBlob (r : Record) : textBlob r = specBlob r := by
  unfold textBlob specBlob
  rw [map_toLower_joinWithSpace, List.map_map]
  rfl

/-- The combined filter predicate is the conjunction of the lottery-only and
the text-only predicates. -/
theorem rowPasses_split (lot q : String) (r : Record) :
    rowPasses lot q r = (rowPasses lot "" r && rowPasses "" q r) := by
  by_cases h1 : lot ≠ "" ∧ r.loteria ≠ lot
  · simp [rowPasses, h1]
  · by_cases h2 : q = ""
    · simp [rowPasses, h1, h2]
    · simp [rowPasses, h1, h2]

/-- Filtering by two predicates in sequence is filtering by their
conjunction. -/
theorem filter_seq_eq_filter_and {α : Type} (p q : α → Bool) (l : List α) :
    (l.filter p).filter q = l.filter (fun r => p r && q r) := by
  induction l with
  | nil => rfl
  | cons x xs ih =>
    by_cases hp : p x <;> by_cases hq : q x <;>
      simp [List.filter_cons, hp, hq, ih]

/-- Membership in the first-occurrence deduplication. -/
theorem mem_dedupFirstAux (y : String) : ∀ (l seen : List String),
    y ∈ dedupFirstAux seen l ↔ (y ∈ l ∧ y ∉ seen) := by
  intro l
  induction l with
  | nil => intro seen; simp [dedupFirstAux]
  | cons x xs ih =>
    intro seen
    by_cases hx : x ∈ seen
    · simp only [dedupFirstAux, if_pos hx, ih, List.mem_cons]
      by_cases hyx : y = x
      · subst hyx
        simp [hx]
      · simp [hyx]
    · simp only [dedupFirstAux, if_neg hx, List.mem_cons, ih]
      by_cases hyx : y = x
      · subst hyx
        simp [hx]
      · simp [hyx]

/-- The first-occurrence deduplication produces a list without duplicates. -/
theorem nodup_dedupFirstAux : ∀ (l seen : List String),
    (dedupFirstAux seen l).Nodup := by
  intro l
  induction l with
  | nil => intro seen; simp [dedupFirstAux]
  | cons x xs ih =>
    intro seen
    by_cases hx : x ∈ seen
    · simp only [dedupFirstAux, if_pos hx]
      exact ih seen
    · simp only [dedupFirstAux, if_neg hx]
      refine List.nodup_cons.mpr ⟨fun hmem => ?_, ih (x :: seen)⟩
      have := (mem_dedupFirstAux x xs (x :: seen)).mp hmem
      exact this.2 (List.mem_cons_self _ _)

/-- Membership in `uniq`: exactly the nonempty entries of the input. -/
theorem mem_uniq (s : String) (arr : List String) :
    s ∈ uniq arr ↔ (s ∈ arr ∧ s ≠ "") := by
  simp [uniq, List.mem_filter, mem_dedupFirstAux]

/-- The `uniq` helper never returns duplicates. -/
theorem nodup_uniq (arr : List String) : (uniq arr).Nodup :=
  List.Nodup.filter _ (nodup_dedupFirstAux arr [])

/-- An absent key reads as the accumulator in the object walk. -/
theorem getFieldGo_not_mem (key : String) : ∀ (headers cells : List String)
    (acc : String), key ∉ headers → getFieldGo headers cells key acc = acc := by
  intro headers
  induction headers with
  | nil => intro cells acc h; rfl
  | cons h hs ih =>
    intro cells acc hk
    have hne : h ≠ key := by
      rintro rfl
      exact hk (List.mem_cons_self _ _)
    simp only [getFieldGo]
    rw [if_neg hne]
    exact ih _ _ (fun hm => hk (List.mem_cons_of_mem _ hm))

/-- A schema key missing from the headers resolves to the empty string. -/
theorem getField_not_mem (headers cells : List String) (key : String)
    (h : key ∉ headers) : getField headers cells key = "" :=
  getFieldGo_not_mem key headers cells "" h

/-- On records with a nonempty category field the defaulting read of
src/app.js line 74 is the identity. -/
theorem effectiveCategory_of_ne (r : Record) (h : r.categoria ≠ "") :
    effectiveCategory r = r.categoria := by
  simp [effectiveCategory, jsOr, h]

/-- C1, counterexample: on the line with unbalanced quotes written here as
a quote then a comma, the comma is preceded by one (odd) double quote, so the
claimed rule refuses the split, yet the code splits there because zero (even)
quote characters follow the comma. -/
theorem c1_preceding_parity_counterexample :
    splitQuoteAware ("a\",b".data) ≠ splitByPrecedingParity ("a\",b".data) := by
  decide

/-- C1 (amended): the quote-aware split of parseCSV treats a comma as a cell
delimiter exactly when an even number of double-quote characters follows it
in the line; on every line whose double quotes are balanced (even count) this
coincides with the claimed rule that the comma not be enclosed by an odd
number of preceding double quotes, and parsing the text with header h1,h2 and
the quoted data row yields one row whose h1 cell is the quoted comma text and
whose h2 cell is the final cell. -/
theorem c1_comma_delimiter_parity :
    (∀ l : List Char, countQuotes l % 2 = 0 →
        splitQuoteAware l = splitByPrecedingParity l)
  ∧ parseLine ("\"a,b\",c".data) = ["a,b", "c"]
  ∧ (parseCSV "h1,h2\n\"a,b\",c").length = 1
  ∧ getField ["h1", "h2"] (parseLine ("\"a,b\",c".data)) "h1" = "a,b"
  ∧ getField ["h1", "h2"] (parseLine ("\"a,b\",c".data)) "h2" = "c" := by
  refine ⟨?_, by decide, by decide, by decide, by decide⟩
  intro l h
  have h0 : (0 + countQuotes l) % 2 = 0 := by omega
  exact (splitByPrecedingAux_eq l 0 h0).symm

/-- C1, witness: the quoted example line has a balanced (even) number of
double quotes, and on it the code split and the preceding-parity split
agree. -/
theorem c1_comma_delimiter_parity_witness :
    countQuotes ("\"a,b\",c".data) % 2 = 0 ∧
      splitQuoteAware ("\"a,b\",c".data) = splitByPrecedingParity ("\"a,b\",c".data) :=
  ⟨by decide, c1_comma_delimiter_parity.1 ("\"a,b\",c".data) (by decide)⟩

/-- C2, counterexample: a record whose only nonempty field is the category
passes the free-text filter for the query equal to that category value, yet
the concatenation named by the claim (which omits the category field) does
not contain the query. -/
theorem c2_text_filter_counterexample :
    rowPasses "" "animalitos" blankCategoryOnlyRec = true ∧
      containsChars (claimedBlob blankCategoryOnlyRec) ("animalitos".data) = false := by
  exact ⟨by decide, by decide⟩

/-- C2 (amended): for every record and nonempty lower-cased query, the
free-text filter passes the record exactly when the lower-cased single-space
join of all eleven schema fields in schema order, the category field
included and first, contains the query as a substring; the query cerdo
matches the record whose animal field is Cerdo. -/
theorem c2_free_text_filter :
    (∀ (r : Record) (q : String), q ≠ "" →
        (rowPasses "" q r = true ↔ containsChars (specBlob r) q.data = true))
  ∧ rowPasses "" "cerdo" cerdoRec = true := by
  refine ⟨?_, by decide⟩
  intro r q hq
  have h1 : rowPasses "" q r = containsChars (textBlob r) q.data := by
    simp [rowPasses, hq]
  rw [h1, textBlob_eq_specBlob]

/-- C2, witness: the amended equivalence instantiated at the Cerdo record and
the nonempty query cerdo. -/
theorem c2_free_text_filter_witness :
    rowPasses "" "cerdo" cerdoRec = true ↔
      containsChars (specBlob cerdoRec) ("cerdo".data) = true :=
  c2_free_text_filter.1 cerdoRec "cerdo" (by decide)

/-- C3: after the load-failure handler the dataset is empty, the stored
filtered list is empty, the recomputed category subset is empty, the
recomputed facet options are empty, and the recomputed result set is empty
for every filter combination. -/
theorem c3_load_failure_clears (s : AppState) (lot q : String) :
    (loadDataFailure s).RAW = []
  ∧ (loadDataFailure s).FILTERED = []
  ∧ rowsForCurrentCategory (loadDataFailure s) = []
  ∧ populateLotterySelect (rowsForCurrentCategory (loadDataFailure s)) = []
  ∧ (rowsForCurrentCategory (loadDataFailure s)).filter (rowPasses lot q) = [] :=
  ⟨rfl, rfl, rfl, rfl, rfl⟩

/-- C4: parseCSV returns exactly one record per data line (the line count of
the trimmed input minus the header line); a schema key missing from the
headers reads as the empty string; the category field of a built record is
loteria whenever its cell resolves to the empty string; and every parsed
record has a nonempty category. -/
theorem c4_parse_shape (text : String) :
    ((parseCSV text).length + 1 = (splitOnNewline (jsTrim text.data)).length)
  ∧ (∀ (headers cells : List String) (key : String), key ∉ headers →
        getField headers cells key = "")
  ∧ (∀ headers cells : List String, getField headers cells "categoria" = "" →
        (mkRecord headers cells).categoria = "loteria")
  ∧ (∀ r ∈ parseCSV text, r.categoria ≠ "") := by
  refine ⟨parseCSV_length text, getField_not_mem, ?_, ?_⟩
  · intro headers cells h
    simp [mkRecord, jsOr, h]
  · intro r hr
    exact parseCSV_categoria_ne text r hr

/-- C4, witness: the shape facts instantiated on concrete inputs, with each
hypothesis discharged by evaluation. -/
theorem c4_parse_shape_witness :
    getField ["a"] [] "fecha" = ""
  ∧ (mkRecord ["categoria"] [""]).categoria = "loteria"
  ∧ blankCategoryOnlyRec.categoria ≠ "" :=
  ⟨(c4_parse_shape "").2.1 ["a"] [] "fecha" (by decide),
   (c4_parse_shape "").2.2.1 ["categoria"] [""] (by decide),
   (c4_parse_shape "categoria\nanimalitos").2.2.2 blankCategoryOnlyRec (by decide)⟩

/-- C5: a cell wrapped in one layer of double quotes loses exactly that layer
and keeps its interior verbatim up to whitespace trimming, and on the quoted
cell containing a doubled internal quote the doubled quote survives
uncollapsed. -/
theorem c5_one_layer_quote_strip :
    (∀ inner : List Char, cleanCell ('"' :: inner ++ ['"']) = jsTrim inner)
  ∧ cleanCell ("\"a\"\"b\"".data) = "a\"\"b".data
  ∧ cleanCell ("\"a\"\"b\"".data) ≠ "a\"b".data := by
  refine ⟨?_, by decide, by decide⟩
  intro inner
  unfold cleanCell stripOuterQuotes
  simp [List.getLast?_concat, List.dropLast_concat]

/-- C6: every record parsed from a feed has a nonempty category, and on every
dataset made of such records the loteria and animalitos category subsets are
disjoint and their union as sets is exactly the records whose category is one
of the two values. -/
theorem c6_category_partition :
    (∀ (text : String) (r : Record), r ∈ parseCSV text → r.categoria ≠ "")
  ∧ (∀ ds : List Record, (∀ r ∈ ds, r.categoria ≠ "") →
      (∀ r : Record,
          ¬(r ∈ forCategory ds "loteria" ∧ r ∈ forCategory ds "animalitos"))
    ∧ (∀ r : Record,
        (r ∈ forCategory ds "loteria" ∨ r ∈ forCategory ds "animalitos") ↔
          (r ∈ ds ∧ (r.categoria = "loteria" ∨ r.categoria = "animalitos")))) := by
  refine ⟨parseCSV_categoria_ne, ?_⟩
  intro ds hds
  have hmem : ∀ (r : Record) (cat : String),
      r ∈ forCategory ds cat ↔ (r ∈ ds ∧ effectiveCategory r = cat) := by
    intro r cat
    simp [forCategory, List.mem_filter]
  constructor
  · rintro r ⟨h1, h2⟩
    rw [hmem] at h1 h2
    rw [effectiveCategory_of_ne r (hds r h1.1)] at h1 h2
    have hcontr : ("loteria" : String) = "animalitos" := h1.2.symm.trans h2.2
    exact absurd hcontr (by decide)
  · intro r
    constructor
    · rintro (h | h)
      · rw [hmem] at h
        rw [effectiveCategory_of_ne r (hds r h.1)] at h
        exact ⟨h.1, Or.inl h.2⟩
      · rw [hmem] at h
        rw [effectiveCategory_of_ne r (hds r h.1)] at h
        exact ⟨h.1, Or.inr h.2⟩
    · rintro ⟨hr, hcat | hcat⟩
      · exact Or.inl ((hmem r _).mpr
          ⟨hr, (effectiveCategory_of_ne r (hds r hr)).trans hcat⟩)
      · exact Or.inr ((hmem r _).mpr
          ⟨hr, (effectiveCategory_of_ne r (hds r hr)).trans hcat⟩)

/-- C6, witness: the partition disjointness applied to the one-record dataset
holding the concrete Cerdo record. -/
theorem c6_category_partition_witness :
    ¬(cerdoRec ∈ forCategory [cerdoRec] "loteria" ∧
        cerdoRec ∈ forCategory [cerdoRec] "animalitos") :=
  (c6_category_partition.2 [cerdoRec] (by decide)).1 cerdoRec

/-- C7: the derived facet-option list contains exactly the distinct nonempty
lottery values of the input records, has no duplicates, is sorted ascending
under the string order modelling the locale comparison, and is empty on the
empty input. -/
theorem c7_facet_derivation (rows : List Record) :
    (∀ s : String, s ∈ populateLotterySelect rows ↔
        (s ≠ "" ∧ s ∈ rows.map (fun r => r.loteria)))
  ∧ (populateLotterySelect rows).Nodup
  ∧ List.Sorted (fun a b : String => a ≤ b) (populateLotterySelect rows)
  ∧ populateLotterySelect ([] : List Record) = [] := by
  have hp := List.perm_insertionSort (fun a b : String => a ≤ b)
    (uniq (rows.map (fun r => r.loteria)))
  refine ⟨?_, ?_, ?_, rfl⟩
  · intro s
    unfold populateLotterySelect
    rw [hp.mem_iff, mem_uniq]
    exact and_comm
  · exact hp.nodup_iff.mpr (nodup_uniq _)
  · exact List.sorted_insertionSort _ _

/-- C8: setCategory always resets both the selected lottery and the search
text to empty, for any category argument, including an immediate repeat of
the same category and the currently active category. -/
theorem c8_setCategory_resets (s : AppState) (cat : String) :
    (setCategory cat s).lotSelValue = ""
  ∧ (setCategory cat s).qValue = ""
  ∧ (setCategory cat (setCategory cat s)).lotSelValue = ""
  ∧ (setCategory cat (setCategory cat s)).qValue = ""
  ∧ (setCategory s.CURRENT_CAT s).lotSelValue = ""
  ∧ (setCategory s.CURRENT_CAT s).qValue = "" :=
  ⟨rfl, rfl, rfl, rfl, rfl, rfl⟩

/-- C9: parseCSV is a total function of the input string (it always returns
some record list), and an input that trims to the empty string parses to the
empty record list. -/
theorem c9_parse_total (text : String) :
    (∃ rs : List Record, parseCSV text = rs)
  ∧ (jsTrim text.data = [] → parseCSV text = []) := by
  refine ⟨⟨parseCSV text, rfl⟩, fun h => ?_⟩
  unfold parseCSV
  rw [h]
  decide

/-- C9, witness: a whitespace-only input trims to empty and parses to the
empty record list. -/
theorem c9_parse_total_witness :
    jsTrim (" \n ".data) = [] ∧ parseCSV " \n " = [] :=
  ⟨by decide, (c9_parse_total " \n ").2 (by decide)⟩

/-- C10: the combined lottery plus free-text filter equals the lottery-only
filter followed by the text-only filter, and also the text-only filter
followed by the lottery-only filter: the two stages compose and commute. -/
theorem c10_filter_stages_compose (rs : List Record) (lot q : String) :
    rs.filter (rowPasses lot q) =
      (rs.filter (rowPasses lot "")).filter (rowPasses "" q)
  ∧ rs.filter (rowPasses lot q) =
      (rs.filter (rowPasses "" q)).filter (rowPasses lot "") := by
  constructor
  · rw [filter_seq_eq_filter_and]
    exact List.filter_congr (fun r _ => rowPasses_split lot q r)
  · rw [filter_seq_eq_filter_and]
    refine List.filter_congr (fun r _ => ?_)
    rw [rowPasses_split lot q r, Bool.and_comm]

end Lottodia
